import Mathlib

/-!
Shallow embedding of `src/calculate_cep.py` (Circular Error Probable
calculator) and verification of its specification.

Modelling conventions:
* A double-precision value is `Option ℝ`: `some r` is the finite real `r`,
  `none` is IEEE NaN.  Every arithmetic operation of the source propagates
  NaN, which the `py*` operations below mirror.  (IEEE infinities are outside
  the model; every claim concerns finite values or NaN.)
* The Python function raises no exception except when `coordinates` is empty:
  `np.array([])` is one-dimensional, so the column access `data[:, 0]` raises
  `IndexError`.  The result type is therefore `Except PyError (Option ℝ)`.
* `np.std(v, ddof=1)` produces NaN when any input value is NaN, and also when
  the list has fewer than two elements (degrees of freedom ≤ 0 makes the
  variance a 0/0 or an empty mean); otherwise it is the Bessel-corrected
  sample standard deviation over the reals.
-/

namespace CalculateCep

/-- A Python/numpy float64 in the model: `some r` is the finite real `r`,
`none` is NaN. -/
abbrev PyFloat := Option ℝ

/-- The only exception the source can raise: `IndexError` from `data[:, 0]`
when the converted array is empty (hence one-dimensional). -/
inductive PyError where
  | indexError
deriving DecidableEq

/-- NaN-propagating addition (models `+` on numpy floats). -/
def pyAdd : PyFloat → PyFloat → PyFloat
  | some a, some b => some (a + b)
  | _, _ => none

/-- NaN-propagating multiplication (models `*` on numpy floats). -/
def pyMul : PyFloat → PyFloat → PyFloat
  | some a, some b => some (a * b)
  | _, _ => none

/-- NaN-propagating squaring (models `**2` on numpy floats). -/
def pySq : PyFloat → PyFloat
  | some a => some (a ^ 2)
  | none => none

/-- Models `np.sqrt`: NaN on NaN input and on negative input, otherwise the
real square root. -/
noncomputable def np_sqrt : PyFloat → PyFloat
  | some a => if a < 0 then none else some (Real.sqrt a)
  | none => none

/-- Returns the list of finite values when no entry is NaN, and `none` (the
whole computation over the column will be NaN) when some entry is NaN. -/
def allFinite (xs : List PyFloat) : Option (List ℝ) :=
  if xs.any Option.isNone then none else some (xs.filterMap id)

/-- The arithmetic mean used inside `np.std` (on an all-finite list). -/
noncomputable def np_mean (vs : List ℝ) : ℝ := vs.sum / vs.length

/-- The finite-input core of `np.std(v, ddof=1)`: the Bessel-corrected
sample standard deviation `sqrt( sum((v_i - mean)^2) / (N - 1) )`. -/
noncomputable def stdFin (vs : List ℝ) : ℝ :=
  Real.sqrt ((vs.map fun v => (v - np_mean vs) ^ 2).sum / ((vs.length : ℝ) - 1))

/-- Models `np.std(xs, ddof=1)`: NaN when any entry is NaN or when there are
fewer than two entries (degrees of freedom ≤ 0), otherwise the sample
standard deviation. -/
noncomputable def np_std (xs : List PyFloat) : PyFloat :=
  match allFinite xs with
  | none => none
  | some vs => if vs.length < 2 then none else some (stdFin vs)

/-- The source's `cep_constant = np.sqrt(-2 * np.log(0.5))`.  The argument
`-2 * ln(0.5) = 2 ln 2` is positive, so this is an ordinary finite value. -/
noncomputable def cep_constant : ℝ := Real.sqrt (-2 * Real.log 0.5)

/-- Shallow embedding of `calculate_cep` from `src/calculate_cep.py`.

The source converts `coordinates` to an array, takes the per-axis sample
standard deviations with `ddof=1`, combines them as
`sigma_r = sqrt(std_x**2 + std_y**2)` and returns `cep_constant * sigma_r`.
It performs no input validation: an empty input raises `IndexError` at
`data[:, 0]`, and NaN (from a NaN coordinate or from a sample of fewer than
two points) propagates to the returned value. -/
noncomputable def calculate_cep (coordinates : List (PyFloat × PyFloat)) :
    Except PyError PyFloat :=
  if coordinates.isEmpty then Except.error PyError.indexError
  else
    let std_x := np_std (coordinates.map Prod.fst)
    let std_y := np_std (coordinates.map Prod.snd)
    let sigma_r := np_sqrt (pyAdd (pySq std_x) (pySq std_y))
    let cep := pyMul (some cep_constant) sigma_r
    Except.ok cep

/-- Embeds a mathematical sample of finite points as an input value. -/
def embed (sample : List (ℝ × ℝ)) : List (PyFloat × PyFloat) :=
  sample.map fun p => (some p.1, some p.2)

/-! ### Basic NaN-propagation lemmas -/

theorem pyAdd_none_left (x : PyFloat) : pyAdd none x = none := rfl

theorem pyAdd_none_right (x : PyFloat) : pyAdd x none = none := by
  cases x <;> rfl

theorem pyMul_none_right (x : PyFloat) : pyMul x none = none := by
  cases x <;> rfl

theorem allFinite_map_some (l : List ℝ) : allFinite (l.map some) = some l := by
  unfold allFinite
  simp [List.any_map, Function.comp_def]

theorem np_std_of_none_mem {xs : List PyFloat} (h : none ∈ xs) : np_std xs = none := by
  unfold np_std allFinite
  have ha : xs.any Option.isNone = true := List.any_eq_true.mpr ⟨none, h, rfl⟩
  rw [ha]
  rfl

/-! ### Permutation invariance -/

theorem perm_any {α : Type} (p : α → Bool) {l₁ l₂ : List α} (h : l₁.Perm l₂) :
    l₁.any p = l₂.any p := by
  induction h with
  | nil => rfl
  | cons x _ ih => simp [List.any_cons, ih]
  | swap x y l => simp [List.any_cons, Bool.or_left_comm]
  | trans _ _ ih₁ ih₂ => exact ih₁.trans ih₂

theorem np_mean_perm {vs₁ vs₂ : List ℝ} (h : vs₁.Perm vs₂) :
    np_mean vs₁ = np_mean vs₂ := by
  unfold np_mean
  rw [h.sum_eq, h.length_eq]

theorem stdFin_perm {vs₁ vs₂ : List ℝ} (h : vs₁.Perm vs₂) :
    stdFin vs₁ = stdFin vs₂ := by
  unfold stdFin
  have hsum : (vs₁.map fun v => (v - np_mean vs₁) ^ 2).sum
      = (vs₂.map fun v => (v - np_mean vs₂) ^ 2).sum := by
    rw [np_mean_perm h]
    exact (h.map _).sum_eq
  rw [hsum, h.length_eq]

theorem np_std_perm {l₁ l₂ : List PyFloat} (h : l₁.Perm l₂) :
    np_std l₁ = np_std l₂ := by
  unfold np_std allFinite
  rw [perm_any Option.isNone h]
  cases hb : l₂.any Option.isNone with
  | true => rfl
  | false =>
    have hp : (l₁.filterMap id).Perm (l₂.filterMap id) := h.filterMap id
    show (if (l₁.filterMap id).length < 2 then none else some (stdFin (l₁.filterMap id)))
        = (if (l₂.filterMap id).length < 2 then none else some (stdFin (l₂.filterMap id)))
    rw [hp.length_eq, stdFin_perm hp]

theorem calculate_cep_perm {l₁ l₂ : List (PyFloat × PyFloat)} (h : l₁.Perm l₂) :
    calculate_cep l₁ = calculate_cep l₂ := by
  unfold calculate_cep
  rw [h.isEmpty_eq, np_std_perm (h.map Prod.fst), np_std_perm (h.map Prod.snd)]

/-! ### The finite, well-formed path through the calculator -/

theorem np_sqrt_of_nonneg {a : ℝ} (ha : 0 ≤ a) :
    np_sqrt (some a) = some (Real.sqrt a) := by
  show (if a < 0 then none else some (Real.sqrt a)) = some (Real.sqrt a)
  rw [if_neg (not_lt.mpr ha)]

theorem np_std_map_some (xs : List ℝ) (h : 2 ≤ xs.length) :
    np_std (xs.map some) = some (stdFin xs) := by
  unfold np_std
  rw [allFinite_map_some]
  simp [Nat.not_lt.mpr h]

theorem embed_map_fst (sample : List (ℝ × ℝ)) :
    (embed sample).map Prod.fst = (sample.map Prod.fst).map some := by
  simp [embed, List.map_map, Function.comp_def]

theorem embed_map_snd (sample : List (ℝ × ℝ)) :
    (embed sample).map Prod.snd = (sample.map Prod.snd).map some := by
  simp [embed, List.map_map, Function.comp_def]

/-- On a finite sample of at least two points, the calculator takes the happy
path and returns the closed-form value. -/
theorem calculate_cep_embed (sample : List (ℝ × ℝ)) (h : 2 ≤ sample.length) :
    calculate_cep (embed sample) =
      Except.ok (some (cep_constant *
        Real.sqrt (stdFin (sample.map Prod.fst) ^ 2
          + stdFin (sample.map Prod.snd) ^ 2))) := by
  have hne : (embed sample).isEmpty = false := by
    cases sample with
    | nil => simp at h
    | cons a t => rfl
  have hlx : (sample.map Prod.fst).length = sample.length := List.length_map _ _
  have hly : (sample.map Prod.snd).length = sample.length := List.length_map _ _
  unfold calculate_cep
  rw [hne, embed_map_fst, embed_map_snd,
    np_std_map_some _ (by rw [hlx]; exact h),
    np_std_map_some _ (by rw [hly]; exact h)]
  show Except.ok (pyMul (some cep_constant)
      (np_sqrt (some (stdFin (sample.map Prod.fst) ^ 2
        + stdFin (sample.map Prod.snd) ^ 2)))) = _
  rw [np_sqrt_of_nonneg (by positivity)]
  rfl

/-! ### Algebra of the sample standard deviation -/

theorem sum_map_add_const (l : List ℝ) (c : ℝ) :
    (l.map fun x => x + c).sum = l.sum + l.length * c := by
  induction l with
  | nil => simp
  | cons a t ih => simp [ih]; ring

theorem sum_map_mul_of (l : List ℝ) (k : ℝ) (f : ℝ → ℝ) :
    (l.map fun x => k * f x).sum = k * (l.map f).sum := by
  induction l with
  | nil => simp
  | cons a t ih => simp [ih]; ring

theorem np_mean_map_add (l : List ℝ) (c : ℝ) (hl : l ≠ []) :
    np_mean (l.map fun x => x + c) = np_mean l + c := by
  have hn : (l.length : ℝ) ≠ 0 := by
    exact_mod_cast Nat.pos_iff_ne_zero.mp (List.length_pos.mpr hl)
  unfold np_mean
  rw [List.length_map, sum_map_add_const]
  field_simp
  ring

theorem np_mean_map_mul (l : List ℝ) (k : ℝ) :
    np_mean (l.map fun x => k * x) = k * np_mean l := by
  unfold np_mean
  rw [List.length_map]
  have hs : (l.map fun x => k * x).sum = k * l.sum := by
    have := sum_map_mul_of l k id
    simpa using this
  rw [hs, mul_div_assoc]

theorem np_mean_const (l : List ℝ) (a : ℝ) (hl : l ≠ []) (h : ∀ x ∈ l, x = a) :
    np_mean l = a := by
  have hn : (l.length : ℝ) ≠ 0 := by
    exact_mod_cast Nat.pos_iff_ne_zero.mp (List.length_pos.mpr hl)
  have hs : l.sum = l.length • a := List.sum_eq_card_nsmul l a h
  unfold np_mean
  rw [hs, nsmul_eq_mul, mul_comm, mul_div_assoc, div_self hn, mul_one]

theorem stdFin_map_add (l : List ℝ) (c : ℝ) (hl : l ≠ []) :
    stdFin (l.map fun x => x + c) = stdFin l := by
  unfold stdFin
  rw [List.length_map, np_mean_map_add l c hl, List.map_map]
  have hfun : ((fun v => (v - (np_mean l + c)) ^ 2) ∘ fun x => x + c)
      = fun v : ℝ => (v - np_mean l) ^ 2 := by
    funext x
    simp only [Function.comp_apply]
    ring
  rw [hfun]

theorem stdFin_map_mul (l : List ℝ) (k : ℝ) (hk : 0 ≤ k) :
    stdFin (l.map fun x => k * x) = k * stdFin l := by
  unfold stdFin
  rw [List.length_map, np_mean_map_mul, List.map_map]
  have hfun : ((fun v => (v - k * np_mean l) ^ 2) ∘ fun x => k * x)
      = fun v : ℝ => k ^ 2 * ((v - np_mean l) ^ 2) := by
    funext x
    simp only [Function.comp_apply]
    ring
  rw [hfun, sum_map_mul_of l (k ^ 2) (fun v => (v - np_mean l) ^ 2),
    mul_div_assoc, Real.sqrt_mul (sq_nonneg k), Real.sqrt_sq hk]

theorem stdFin_const (l : List ℝ) (a : ℝ) (hl : l ≠ []) (h : ∀ x ∈ l, x = a) :
    stdFin l = 0 := by
  unfold stdFin
  have hz : (l.map fun v => (v - np_mean l) ^ 2).sum = 0 := by
    refine List.sum_eq_zero fun x hx => ?_
    obtain ⟨v, hv, rfl⟩ := List.mem_map.mp hx
    rw [np_mean_const l a hl h, h v hv]
    ring
  rw [hz, zero_div, Real.sqrt_zero]

/-! ### The specification's formula, written from the spec text -/

/-- The spec's Bessel-corrected sample standard deviation:
`std = sqrt( sum((v_i - mean(v))^2) / (N-1) )`. -/
noncomputable def spec_std (vs : List ℝ) : ℝ :=
  Real.sqrt ((vs.map fun v => (v - vs.sum / vs.length) ^ 2).sum / ((vs.length : ℝ) - 1))

/-- The spec's CEP formula: `sigma_r = sqrt(std_x^2 + std_y^2)` and
`CEP = sigma_r * sqrt(-2 * ln(0.5))`. -/
noncomputable def spec_cep (sample : List (ℝ × ℝ)) : ℝ :=
  Real.sqrt (-2 * Real.log 0.5) *
    Real.sqrt (spec_std (sample.map Prod.fst) ^ 2 + spec_std (sample.map Prod.snd) ^ 2)

theorem spec_std_eq_stdFin (vs : List ℝ) : spec_std vs = stdFin vs := rfl

/-! ### Claim theorems -/

/-- Claim C1: for every sample of at least two points with finite
coordinates, `calculate_cep` returns (without error and without NaN) exactly
`sqrt(-2*ln(0.5)) * sqrt(std_x^2 + std_y^2)` where `std_x`, `std_y` are the
Bessel-corrected (denominator N−1) sample standard deviations of the two
coordinate axes. -/
theorem calculate_cep_matches_spec (sample : List (ℝ × ℝ)) (h : 2 ≤ sample.length) :
    calculate_cep (embed sample) = Except.ok (some (spec_cep sample)) := by
  rw [calculate_cep_embed sample h]
  rfl

/-- Witness for C1 at the concrete two-point sample [(0,0),(1,1)]. -/
theorem calculate_cep_matches_spec_witness :
    calculate_cep (embed [((0 : ℝ), (0 : ℝ)), (1, 1)])
      = Except.ok (some (spec_cep [((0 : ℝ), (0 : ℝ)), (1, 1)])) :=
  calculate_cep_matches_spec [((0 : ℝ), (0 : ℝ)), (1, 1)] (by simp)

/-- Claim C3: for every sample of at least two points, `calculate_cep` is
invariant under permutation of the sample. -/
theorem calculate_cep_perm_invariant (s₁ s₂ : List (ℝ × ℝ)) (hp : s₁.Perm s₂)
    (h : 2 ≤ s₁.length) :
    calculate_cep (embed s₁) = calculate_cep (embed s₂) :=
  calculate_cep_perm (hp.map _)

/-- Witness for C3: swapping the two points of a concrete sample leaves the
result unchanged. -/
theorem calculate_cep_perm_invariant_witness :
    calculate_cep (embed [((1 : ℝ), (2 : ℝ)), (3, 4)])
      = calculate_cep (embed [((3 : ℝ), (4 : ℝ)), (1, 2)]) :=
  calculate_cep_perm_invariant _ _ (List.Perm.swap ((3 : ℝ), (4 : ℝ)) ((1 : ℝ), (2 : ℝ)) [])
    (by simp)

/-- Claim C9: the result of `calculate_cep` depends only on the multiset of
input values — any two inputs carrying the same multiset of points (NaN
entries included) produce equal results.  Determinism and freedom from side
effects hold because the embedded computation is a pure function of its
argument. -/
theorem calculate_cep_multiset_determined (l₁ l₂ : List (PyFloat × PyFloat))
    (h : (l₁ : Multiset (PyFloat × PyFloat)) = (l₂ : Multiset (PyFloat × PyFloat))) :
    calculate_cep l₁ = calculate_cep l₂ :=
  calculate_cep_perm (Multiset.coe_eq_coe.mp h)

/-- Witness for C9 at two concrete lists carrying the same multiset. -/
theorem calculate_cep_multiset_determined_witness :
    calculate_cep [(some 1, some 2), (none, some 3)]
      = calculate_cep [(none, some 3), (some 1, some 2)] :=
  calculate_cep_multiset_determined _ _
    (Multiset.coe_eq_coe.mpr (List.Perm.swap (none, some 3) (some 1, some 2) []))

theorem map_fst_translate (sample : List (ℝ × ℝ)) (dx dy : ℝ) :
    (sample.map fun p => (p.1 + dx, p.2 + dy)).map Prod.fst
      = (sample.map Prod.fst).map fun x => x + dx := by
  simp [List.map_map, Function.comp_def]

theorem map_snd_translate (sample : List (ℝ × ℝ)) (dx dy : ℝ) :
    (sample.map fun p => (p.1 + dx, p.2 + dy)).map Prod.snd
      = (sample.map Prod.snd).map fun x => x + dy := by
  simp [List.map_map, Function.comp_def]

/-- Claim C4: adding a constant vector (dx, dy) to every point of a sample
of at least two points leaves the result of `calculate_cep` unchanged. -/
theorem calculate_cep_translation_invariant (sample : List (ℝ × ℝ)) (dx dy : ℝ)
    (h : 2 ≤ sample.length) :
    calculate_cep (embed (sample.map fun p => (p.1 + dx, p.2 + dy)))
      = calculate_cep (embed sample) := by
  have hne : sample ≠ [] := by
    intro hc
    rw [hc] at h
    simp at h
  have hnex : sample.map Prod.fst ≠ [] := by simpa using hne
  have hney : sample.map Prod.snd ≠ [] := by simpa using hne
  have hlen : (sample.map fun p => (p.1 + dx, p.2 + dy)).length = sample.length :=
    List.length_map _ _
  rw [calculate_cep_embed _ (by rw [hlen]; exact h), calculate_cep_embed _ h,
    map_fst_translate, map_snd_translate,
    stdFin_map_add _ dx hnex, stdFin_map_add _ dy hney]

/-- Witness for C4: translating a concrete two-point sample by (1, 2). -/
theorem calculate_cep_translation_invariant_witness :
    calculate_cep (embed ([((0 : ℝ), (0 : ℝ)), (1, 1)].map fun p => (p.1 + 1, p.2 + 2)))
      = calculate_cep (embed [((0 : ℝ), (0 : ℝ)), (1, 1)]) :=
  calculate_cep_translation_invariant [((0 : ℝ), (0 : ℝ)), (1, 1)] 1 2 (by simp)

theorem map_fst_scale (sample : List (ℝ × ℝ)) (k : ℝ) :
    (sample.map fun p => (k * p.1, k * p.2)).map Prod.fst
      = (sample.map Prod.fst).map fun x => k * x := by
  simp [List.map_map, Function.comp_def]

theorem map_snd_scale (sample : List (ℝ × ℝ)) (k : ℝ) :
    (sample.map fun p => (k * p.1, k * p.2)).map Prod.snd
      = (sample.map Prod.snd).map fun x => k * x := by
  simp [List.map_map, Function.comp_def]

/-- Claim C5: multiplying every coordinate of a sample of at least two points
by a positive factor k multiplies the result of `calculate_cep` by k. -/
theorem calculate_cep_scales_linearly (sample : List (ℝ × ℝ)) (k : ℝ)
    (hk : 0 < k) (h : 2 ≤ sample.length) :
    ∃ r : ℝ, calculate_cep (embed sample) = Except.ok (some r) ∧
      calculate_cep (embed (sample.map fun p => (k * p.1, k * p.2)))
        = Except.ok (some (k * r)) := by
  refine ⟨cep_constant * Real.sqrt (stdFin (sample.map Prod.fst) ^ 2
    + stdFin (sample.map Prod.snd) ^ 2), calculate_cep_embed sample h, ?_⟩
  have hlen : (sample.map fun p => (k * p.1, k * p.2)).length = sample.length :=
    List.length_map _ _
  rw [calculate_cep_embed _ (by rw [hlen]; exact h),
    map_fst_scale, map_snd_scale,
    stdFin_map_mul _ k hk.le, stdFin_map_mul _ k hk.le]
  have harg : (k * stdFin (sample.map Prod.fst)) ^ 2
      + (k * stdFin (sample.map Prod.snd)) ^ 2
      = k ^ 2 * (stdFin (sample.map Prod.fst) ^ 2
        + stdFin (sample.map Prod.snd) ^ 2) := by ring
  rw [harg, Real.sqrt_mul (sq_nonneg k), Real.sqrt_sq hk.le]
  congr 1
  congr 1
  ring

/-- Witness for C5: doubling a concrete two-point sample doubles the CEP. -/
theorem calculate_cep_scales_linearly_witness :
    ∃ r : ℝ, calculate_cep (embed [((0 : ℝ), (0 : ℝ)), (1, 0)]) = Except.ok (some r) ∧
      calculate_cep (embed ([((0 : ℝ), (0 : ℝ)), (1, 0)].map fun p => (2 * p.1, 2 * p.2)))
        = Except.ok (some (2 * r)) :=
  calculate_cep_scales_linearly [((0 : ℝ), (0 : ℝ)), (1, 0)] 2 (by norm_num) (by simp)

/-- Claim C6: on a sample of at least two identical points, `calculate_cep`
returns exactly 0. -/
theorem calculate_cep_identical_points (sample : List (ℝ × ℝ)) (p : ℝ × ℝ)
    (hall : ∀ q ∈ sample, q = p) (h : 2 ≤ sample.length) :
    calculate_cep (embed sample) = Except.ok (some 0) := by
  have hne : sample ≠ [] := by
    intro hc
    rw [hc] at h
    simp at h
  have hnex : sample.map Prod.fst ≠ [] := by simpa using hne
  have hney : sample.map Prod.snd ≠ [] := by simpa using hne
  have hx : stdFin (sample.map Prod.fst) = 0 := by
    refine stdFin_const _ p.1 hnex fun x hx => ?_
    obtain ⟨q, hq, rfl⟩ := List.mem_map.mp hx
    rw [hall q hq]
  have hy : stdFin (sample.map Prod.snd) = 0 := by
    refine stdFin_const _ p.2 hney fun x hx => ?_
    obtain ⟨q, hq, rfl⟩ := List.mem_map.mp hx
    rw [hall q hq]
  rw [calculate_cep_embed sample h, hx, hy]
  norm_num

/-- Witness for C6, the spec's concrete scenario: the sample [(0,0),(0,0)]
yields exactly 0. -/
theorem calculate_cep_identical_points_witness :
    calculate_cep (embed [((0 : ℝ), (0 : ℝ)), (0, 0)]) = Except.ok (some 0) :=
  calculate_cep_identical_points [((0 : ℝ), (0 : ℝ)), (0, 0)] (0, 0)
    (by
      intro q hq
      rcases List.mem_cons.mp hq with h0 | h1
      · exact h0
      · simpa using h1) (by simp)

/-- Claim C7: on every sample of at least two points with finite coordinates
the calculator returns a finite (non-NaN, non-error) and non-negative value. -/
theorem calculate_cep_nonneg_finite (sample : List (ℝ × ℝ)) (h : 2 ≤ sample.length) :
    ∃ r : ℝ, calculate_cep (embed sample) = Except.ok (some r) ∧ 0 ≤ r := by
  refine ⟨_, calculate_cep_embed sample h, ?_⟩
  have h1 : 0 ≤ cep_constant := Real.sqrt_nonneg _
  exact mul_nonneg h1 (Real.sqrt_nonneg _)

/-- Witness for C7 at the concrete sample [(0,0),(1,1)]. -/
theorem calculate_cep_nonneg_finite_witness :
    ∃ r : ℝ, calculate_cep (embed [((0 : ℝ), (0 : ℝ)), (1, 1)])
      = Except.ok (some r) ∧ 0 ≤ r :=
  calculate_cep_nonneg_finite [((0 : ℝ), (0 : ℝ)), (1, 1)] (by simp)

/-- Claim C8: on the symmetric sample [(1,0),(-1,0),(0,1),(0,-1)] the
calculator returns a value agreeing with 1.3596 to at least three decimal
places. -/
theorem calculate_cep_symmetric_sample :
    ∃ r : ℝ, calculate_cep (embed [((1 : ℝ), (0 : ℝ)), (-1, 0), (0, 1), (0, -1)])
      = Except.ok (some r) ∧ |r - 1.3596| < 0.0005 := by
  refine ⟨_, calculate_cep_embed _ (by simp), ?_⟩
  have hmx : List.map Prod.fst [((1 : ℝ), (0 : ℝ)), (-1, 0), (0, 1), (0, -1)]
      = [(1 : ℝ), -1, 0, 0] := rfl
  have hmy : List.map Prod.snd [((1 : ℝ), (0 : ℝ)), (-1, 0), (0, 1), (0, -1)]
      = [(0 : ℝ), 0, 1, -1] := rfl
  have hx : stdFin [(1 : ℝ), -1, 0, 0] = Real.sqrt (2 / 3) := by
    unfold stdFin np_mean
    congr 1
    norm_num
  have hy : stdFin [(0 : ℝ), 0, 1, -1] = Real.sqrt (2 / 3) := by
    unfold stdFin np_mean
    congr 1
    norm_num
  rw [hmx, hmy, hx, hy, Real.sq_sqrt (by norm_num : (0 : ℝ) ≤ 2 / 3)]
  have hc : cep_constant = Real.sqrt (2 * Real.log 2) := by
    unfold cep_constant
    rw [show ((0.5 : ℝ) = 2⁻¹) by norm_num, Real.log_inv]
    ring_nf
  have hlog2 : (0 : ℝ) ≤ 2 * Real.log 2 :=
    mul_nonneg (by norm_num) (Real.log_nonneg (by norm_num))
  have hval : cep_constant * Real.sqrt (2 / 3 + 2 / 3)
      = Real.sqrt (2 * Real.log 2 * (4 / 3)) := by
    rw [hc, show ((2 : ℝ) / 3 + 2 / 3 = 4 / 3) by norm_num,
      Real.sqrt_mul hlog2]
  rw [hval]
  have hlo : (1.3591 : ℝ) < Real.sqrt (2 * Real.log 2 * (4 / 3)) := by
    rw [Real.lt_sqrt (by norm_num)]
    nlinarith [Real.log_two_gt_d9]
  have hhi : Real.sqrt (2 * Real.log 2 * (4 / 3)) < (1.3601 : ℝ) := by
    rw [Real.sqrt_lt' (by norm_num)]
    nlinarith [Real.log_two_lt_d9]
  rw [abs_sub_lt_iff]
  constructor <;> linarith

/-- Claim C10: a sample (of at least two points) containing a NaN coordinate
is neither rejected nor an error: the NaN propagates and the function returns
NaN. -/
theorem calculate_cep_nan_propagates (coords : List (PyFloat × PyFloat))
    (h : 2 ≤ coords.length) (hnan : ∃ p ∈ coords, p.1 = none ∨ p.2 = none) :
    calculate_cep coords = Except.ok none := by
  obtain ⟨p, hp, hcase⟩ := hnan
  have hne : coords.isEmpty = false := by
    cases coords with
    | nil => simp at h
    | cons a t => rfl
  unfold calculate_cep
  rw [hne]
  show Except.ok (pyMul (some cep_constant)
      (np_sqrt (pyAdd (pySq (np_std (coords.map Prod.fst)))
        (pySq (np_std (coords.map Prod.snd)))))) = Except.ok none
  cases hcase with
  | inl h1 =>
    have hmem : none ∈ coords.map Prod.fst := List.mem_map.mpr ⟨p, hp, h1⟩
    rw [np_std_of_none_mem hmem]
    rfl
  | inr h2 =>
    have hmem : none ∈ coords.map Prod.snd := List.mem_map.mpr ⟨p, hp, h2⟩
    rw [np_std_of_none_mem hmem,
      show pySq (none : PyFloat) = none from rfl, pyAdd_none_right]
    rfl

/-- Witness for C10 at a concrete sample whose first point has a NaN x
coordinate. -/
theorem calculate_cep_nan_propagates_witness :
    calculate_cep [(none, some 0), (some 1, some 2)] = Except.ok none :=
  calculate_cep_nan_propagates _ (by simp)
    ⟨(none, some 0), by simp, Or.inl rfl⟩

/-- Counterexample to claim C2: a one-point sample (fewer than two points) is
not rejected with an error; the function returns normally, with value NaN. -/
theorem calculate_cep_single_point_not_error :
    calculate_cep [(some 0, some 0)] = Except.ok none ∧
      calculate_cep [(some 0, some 0)] ≠ Except.error PyError.indexError := by
  have h1 : calculate_cep [(some 0, some 0)] = Except.ok none := rfl
  exact ⟨h1, by rw [h1]; exact fun hc => Except.noConfusion hc⟩

/-- Claim C2 as amended: the source performs no input validation.  An empty
sample fails with an error (the IndexError from indexing the empty array)
and no result; a one-point sample does not fail at all — it returns NaN. -/
theorem calculate_cep_small_sample_behaviour :
    calculate_cep [] = Except.error PyError.indexError ∧
      ∀ p : PyFloat × PyFloat, calculate_cep [p] = Except.ok none := by
  refine ⟨rfl, fun p => ?_⟩
  obtain ⟨a, b⟩ := p
  have hx : np_std [a] = none := by
    cases a with
    | none => exact np_std_of_none_mem (by simp)
    | some x => rfl
  show Except.ok (pyMul (some cep_constant)
      (np_sqrt (pyAdd (pySq (np_std [a])) (pySq (np_std [b]))))) = Except.ok none
  rw [hx]
  rfl

/-- Witness for the amended C2 at a concrete one-point sample. -/
theorem calculate_cep_small_sample_behaviour_witness :
    calculate_cep [(some 1, some 1)] = Except.ok none :=
  calculate_cep_small_sample_behaviour.2 (some 1, some 1)

end CalculateCep
